import Mathlib

/-!
Shallow embedding of `wallpaper_engine_xwayland` (src/compat.rs, src/main.rs).

Filesystem state and the results of external commands (xdotool, pgrep, the
Steam client) are modelled as explicit oracle functions; spawned commands are
modelled as data. Machine behaviour that the claims quantify over (polling
loops) is modelled with explicit fuel, since the Rust loops may diverge.
-/

namespace WEX

/-- Path concatenation as done by Rust `PathBuf::join` for relative components. -/
def pathJoin (a b : String) : String := a ++ "/" ++ b

/-- The ambient process environment: the home directory and the filesystem
existence oracle (`Path::exists`). -/
structure Env where
  home : String
  existsAt : String → Bool

/-- `STEAM_PATH` from main.rs: `dirs::home_dir().join(".steam/steam")`. -/
def STEAM_PATH (e : Env) : String := pathJoin e.home ".steam/steam"

/-- `STEAMAPPS` from main.rs. -/
def STEAMAPPS (e : Env) : String := pathJoin (STEAM_PATH e) "steamapps"

/-- `COMMON` from main.rs: the vendor "common applications" directory. -/
def COMMON (e : Env) : String := pathJoin (STEAMAPPS e) "common"

/-- `COMPATIBILITYTOOLS_D` from compat.rs: the user compatibility-tools directory. -/
def COMPATIBILITYTOOLS_D (e : Env) : String :=
  pathJoin (STEAM_PATH e) "compatibilitytools.d"

/-- `WALLPAPER_ENGINE_PATH` from main.rs. -/
def WALLPAPER_ENGINE_PATH (e : Env) : String :=
  pathJoin (COMMON e) "wallpaper_engine"

/-- `WORKSHOP_CONTENT_PATH` from main.rs. -/
def WORKSHOP_CONTENT_PATH (e : Env) : String :=
  pathJoin (STEAMAPPS e) (pathJoin "workshop/content" "431960")

/-- `struct SteamCompat` from compat.rs. -/
structure SteamCompat where
  name : String
  path : String
  builtin : Bool
deriving DecidableEq, Repr

/-- `SteamCompat::from_name` from compat.rs: four-way match on existence of
the name under the vendor `common` directory and the user
`compatibilitytools.d` directory; `None` models the Rust `None` (NotFound). -/
def SteamCompat.from_name (e : Env) (name : String) : Option SteamCompat :=
  let common_dir := pathJoin (COMMON e) name
  let d_dir := pathJoin (COMPATIBILITYTOOLS_D e) name
  match e.existsAt common_dir, e.existsAt d_dir with
  | true, true => some ⟨name, d_dir, false⟩
  | true, false => some ⟨name, common_dir, true⟩
  | false, true => some ⟨name, d_dir, false⟩
  | false, false => none

/-! ### Snake-case transform

Embedding of `heck::ToSnakeCase` as used by `SteamCompat::internal_name`:
split the input on non-alphanumeric characters, split each run at
camel-case boundaries, lowercase, and join the resulting words with `_`. -/

/-- The word-mode state of heck's boundary-detection loop. -/
inductive WMode where
  | boundary
  | lower
  | upper
deriving DecidableEq

/-- Split one alphanumeric run at camel-case boundaries. `acc` holds the
characters of the segment currently being accumulated (in order). -/
def camelGo (mode : WMode) (acc : List Char) : List Char → List (List Char)
  | [] => []
  | [c] => [acc ++ [c]]
  | c :: next :: rest =>
    let nextMode :=
      if c.isLower then WMode.lower
      else if c.isUpper then WMode.upper
      else mode
    if nextMode = WMode.lower ∧ next.isUpper then
      (acc ++ [c]) :: camelGo WMode.boundary [] (next :: rest)
    else if mode = WMode.upper ∧ c.isUpper ∧ next.isLower then
      acc :: camelGo WMode.boundary [c] (next :: rest)
    else
      camelGo nextMode (acc ++ [c]) (next :: rest)

/-- Split a character list at every character satisfying `p`, dropping the
separator characters and keeping (possibly empty) segments. -/
def splitOnP (p : Char → Bool) : List Char → List (List Char)
  | [] => [[]]
  | c :: cs =>
    let r := splitOnP p cs
    if p c then [] :: r
    else
      match r with
      | [] => [[c]]
      | w :: ws => (c :: w) :: ws

/-- The words heck emits for an input: non-alphanumeric characters separate
runs (empty runs emit nothing), and each run is camel-split. -/
def snakeWords (s : List Char) : List (List Char) :=
  (((splitOnP (fun c => !c.isAlphanum) s).filter (· ≠ [])).map
    (camelGo WMode.boundary [])).flatten

/-- Join words with a single `_` between consecutive words. -/
def joinU : List (List Char) → List Char
  | [] => []
  | [w] => w
  | w :: ws => w ++ '_' :: joinU ws

/-- `heck::ToSnakeCase::to_snake_case` (ASCII fragment). -/
def toSnakeCase (s : String) : String :=
  ⟨joinU ((snakeWords s.data).map (fun w => w.map Char.toLower))⟩

/-! ### Rust `str::replace`

Leftmost, non-overlapping replacement of every occurrence of `pat` by `rep`,
scanning left to right and resuming after each match. -/

/-- Is `p` an initial segment of `s`? -/
def isPre : List Char → List Char → Bool
  | [], _ => true
  | _ :: _, [] => false
  | a :: as, b :: bs => a = b && isPre as bs

/-- Scanner for `replaceAll`. `skip` counts characters still to be consumed
silently because they were part of an already-replaced match. -/
def replGo (pat rep : List Char) : Nat → List Char → List Char
  | _, [] => []
  | Nat.succ skip, _ :: cs => replGo pat rep skip cs
  | 0, c :: cs =>
    if pat ≠ [] ∧ isPre pat (c :: cs) then
      rep ++ replGo pat rep (pat.length - 1) cs
    else
      c :: replGo pat rep 0 cs

/-- Rust `str::replace pat -> rep` on character lists. -/
def replaceAll (pat rep s : List Char) : List Char :=
  replGo pat rep 0 s

/-- The characters of `"proton_"`. -/
def pUsc : List Char := "proton_".data

/-- The characters of `"proton-"`. -/
def pDash : List Char := "proton-".data

/-- The "diabolical" underscore-removal chain from `internal_name`:
`.replace("proton_", "proton-").replace("_", "").replace("proton-", "proton_")`. -/
def postProcess (s : String) : String :=
  ⟨replaceAll pDash pUsc (replaceAll ['_'] [] (replaceAll pUsc pDash s.data))⟩

/-- Is `w` a nonempty all-digit token? -/
def digitsTok (w : List Char) : Bool :=
  decide (w ≠ []) && w.all Char.isDigit

/-- Modelled from the spec: the pattern resource `internal.pom` (referenced by
`include_str!` in compat.rs but absent from the sources) — the grammar that
extracts the `name` capture from the snake-cased display name. Per the spec it
must map `proton_experimental` to itself, `proton_10_0` to `proton_10`
(a `.0` minor version is dropped), `proton_4_11` to `proton_4_11` (a nonzero
minor version is kept, to be collapsed by post-processing into `proton_411`),
and discard trailing qualifiers such as `_beta`; anything not starting with a
`proton` token fails to match. -/
def captureFromToks : List (List Char) → Option String
  | p :: major :: rest =>
    if p = "proton".data then
      if digitsTok major then
        match rest with
        | minor :: _ =>
          if digitsTok minor then
            if minor = ['0'] then some ⟨pUsc ++ major⟩
            else some ⟨pUsc ++ major ++ '_' :: minor⟩
          else some ⟨pUsc ++ major⟩
        | [] => some ⟨pUsc ++ major⟩
      else if major ≠ [] then some ⟨pUsc ++ major⟩
      else none
    else none
  | _ => none

/-- The capture grammar applied to a snake-cased string: tokenize at `_` and
extract the capture. -/
def internalPomCapture (snake : String) : Option String :=
  captureFromToks (splitOnP (fun c => c = '_') snake.data)

/-- `SteamCompat::internal_name` from compat.rs: user-installed tools keep
their display name verbatim; vendor-built-in tools go through snake-casing,
the capture grammar, and the underscore post-processing, falling back to the
plain snake-cased text (with a diagnostic on stderr, not modelled) when the
grammar does not produce a capture. -/
def SteamCompat.internal_name (c : SteamCompat) : String :=
  if c.builtin then
    let snake := toSnakeCase c.name
    match internalPomCapture snake with
    | some matched => postProcess matched
    | none => snake
  else
    c.name

/-! ### main.rs driver -/

/-- `struct Args` from main.rs (clap surface). -/
structure Args where
  proton_version : String
  arch : String
  wallpaper_ids : List String

/-- Outcome of main's configuration phase, up to the point where the per-item
loop would start. Each early constructor records how main terminates there. -/
inductive MainOutcome where
  | resolutionError (name : String)
  | archError
  | emptyWallpapersEarlyReturn
  | missingExeError (path : String)
  | proceed (sc : SteamCompat) (proton : String) (wallpaper_engine : String)
deriving DecidableEq

/-- The process exit status produced by each early-terminating outcome:
`resolutionError` propagates an `Err` out of `main` (anyhow reports it and the
process exits nonzero, modelled as 1); `archError` and `missingExeError` call
`std::process::exit(1)`; `emptyWallpapersEarlyReturn` is
`eprintln!` followed by `return Ok(())`, so the process exits 0. `proceed`
means the configuration phase did not terminate the process. -/
def exitCode : MainOutcome → Option Nat
  | .resolutionError _ => some 1
  | .archError => some 1
  | .emptyWallpapersEarlyReturn => some 0
  | .missingExeError _ => some 1
  | .proceed _ _ _ => none

/-- The configuration phase of `main` in source order: resolve the Proton
folder, validate the architecture selector, check the wallpaper list is
nonempty, and check the renderer executable exists (the wait-for-Steam block
between the last two checks only blocks and decides nothing, so it is not
modelled). -/
def mainConfigPhase (e : Env) (args : Args) : MainOutcome :=
  match SteamCompat.from_name e args.proton_version with
  | none => .resolutionError args.proton_version
  | some sc =>
    if args.arch ≠ "64" ∧ args.arch ≠ "32" then .archError
    else
      let proton := pathJoin sc.path "proton"
      if args.wallpaper_ids.length = 0 then .emptyWallpapersEarlyReturn
      else
        let wallpaper_engine :=
          pathJoin (WALLPAPER_ENGINE_PATH e)
            ("wallpaper" ++ args.arch ++ ".exe")
        if ¬ e.existsAt wallpaper_engine then .missingExeError wallpaper_engine
        else .proceed sc proton wallpaper_engine

/-- A spawned external command, as data. -/
inductive Cmd where
  | steamAppLaunch (appId : Nat) (args : List String)
  | protonRun (proton : String) (exe : String) (args : List String)
deriving DecidableEq

/-- `enum SteamOrProton` from main.rs. -/
inductive SteamOrProton where
  | steam
  | proton (p : String)

/-- The renderer control-protocol argument vector built in `start_wallpaper`. -/
def wallpaperArgs (file_path title : String) : List String :=
  ["-nobrowse", "-control", "openWallpaper", "-file", file_path,
   "-playInWindow", title, "-width", "1920", "-height", "1080"]

/-- `start_wallpaper` from main.rs: either `steam -applaunch 431960 <args>` or
`<proton> run <wallpaper_engine> <args>`. -/
def start_wallpaper (sop : SteamOrProton) (wallpaper_engine : String)
    (title : String) (file_path : String) : Cmd :=
  match sop with
  | .steam => .steamAppLaunch 431960 (wallpaperArgs file_path title)
  | .proton p => .protonRun p wallpaper_engine (wallpaperArgs file_path title)

/-- One iteration of the per-wallpaper loop body in `main`, given the
renderer-liveness observation made at that iteration: synthesize the title and
the Z-drive file path and pick the launch path exactly as the code does. -/
def launchStep (e : Env) (weRunning : Bool) (proton wallpaper_engine : String)
    (i : Nat) (wallpaper_id : String) : Cmd :=
  let title := "Wallpaper #" ++ toString i
  let dir := pathJoin (WORKSHOP_CONTENT_PATH e) wallpaper_id
  let file_path := "Z:" ++ pathJoin dir "project.json"
  start_wallpaper
    (if !weRunning then SteamOrProton.steam else SteamOrProton.proton proton)
    wallpaper_engine title file_path

/-- `we_is_running` from main.rs: pgrep for the 32-bit image name, then for
the 64-bit image name; `pgrep pat` is the oracle "pgrep -f pat produced
output". -/
def we_is_running (pgrep : String → Bool) : Bool :=
  if pgrep "wallpaper32.exe" then true
  else if pgrep "wallpaper64.exe" then true
  else false

/-- The `while we_is_running` stop loop of main.rs, fuel-indexed. `query k` is
the liveness observation of the k-th poll. On termination within `fuel`
polls it returns `(polls made, stop commands issued inside the loop)`;
`none` means the loop was still running after `fuel` polls. -/
def stopLoopRun (query : Nat → Bool) : Nat → Nat → Option (Nat × Nat)
  | 0, _ => none
  | Nat.succ fuel, k =>
    if query k then
      (stopLoopRun query fuel (k + 1)).map (fun r => (r.1 + 1, r.2 + 1))
    else
      some (1, 0)

/-- The whole stop-prior-instance phase of main.rs: one unconditional stop
command, then the polling loop. Returns `(polls made, total stop commands)`. -/
def stopPhase (query : Nat → Bool) (fuel : Nat) : Option (Nat × Nat) :=
  (stopLoopRun query fuel 0).map (fun r => (r.1, r.2 + 1))

/-- `window_title_exists` from main.rs: the xdotool oracle maps an argument
vector to "exit status was success". -/
def window_title_exists (xdotool : List String → Bool) (title : String) : Bool :=
  xdotool ["search", "--name", title]

/-- `wait_for_window` from main.rs, fuel-indexed: poll `query` from index `k`;
return the index of the first successful poll, or `none` when `fuel` polls
were all unsuccessful. -/
def wait_for_window_run (query : Nat → Bool) : Nat → Nat → Option Nat
  | 0, _ => none
  | Nat.succ fuel, k =>
    if query k then some k else wait_for_window_run query fuel (k + 1)

/-! ### Concrete environments used to exercise the theorems -/

/-- Home `h`; only the user compatibilitytools.d copy of `T` exists. -/
def envUserOnly : Env :=
  ⟨"h", fun p => p == "h/.steam/steam/compatibilitytools.d/T"⟩

/-- Home `h`; both the vendor and the user copy of `T` exist. -/
def envBothDirs : Env :=
  ⟨"h", fun p => p == "h/.steam/steam/compatibilitytools.d/T"
    || p == "h/.steam/steam/steamapps/common/T"⟩

/-- Home `h`; only the vendor common copy of `T` exists. -/
def envVendorOnly : Env :=
  ⟨"h", fun p => p == "h/.steam/steam/steamapps/common/T"⟩

/-- Home `h`; nothing exists. -/
def envNothing : Env := ⟨"h", fun _ => false⟩

/-- Home `h`; every path exists. -/
def envAll : Env := ⟨"h", fun _ => true⟩

/-- Home `h`; only the vendor common copy of `Proton 10.0` exists (in
particular no renderer executable exists). -/
def envProtonNoExe : Env :=
  ⟨"h", fun p => p == "h/.steam/steam/steamapps/common/Proton 10.0"⟩

/-! ### Helper lemmas -/

theorem isPre_subset {p s : List Char} (h : isPre p s = true) :
    ∀ c ∈ p, c ∈ s := by
  induction p generalizing s with
  | nil => intro c hc; cases hc
  | cons a as ih =>
    cases s with
    | nil => simp [isPre] at h
    | cons b bs =>
      simp only [isPre, Bool.and_eq_true, decide_eq_true_eq] at h
      intro c hc
      rcases List.mem_cons.mp hc with rfl | hc
      · exact h.1 ▸ List.mem_cons_self _ _
      · exact List.mem_cons_of_mem _ (ih h.2 c hc)

theorem isPre_self_append (l t : List Char) : isPre l (l ++ t) = true := by
  induction l with
  | nil => rfl
  | cons a as ih => simp [isPre, ih]

theorem replGo_skip (pat rep : List Char) (l rest : List Char) :
    replGo pat rep l.length (l ++ rest) = replGo pat rep 0 rest := by
  induction l with
  | nil => rfl
  | cons c cs ih =>
    show replGo pat rep (cs.length + 1) (c :: (cs ++ rest)) = _
    rw [replGo, ih]

theorem replaceAll_pre (pat rep rest : List Char) (hne : pat ≠ []) :
    replaceAll pat rep (pat ++ rest) = rep ++ replaceAll pat rep rest := by
  cases pat with
  | nil => exact absurd rfl hne
  | cons p ps =>
    show replGo (p :: ps) rep 0 (p :: (ps ++ rest)) = _
    rw [replGo]
    have hcond : (p :: ps) ≠ [] ∧ isPre (p :: ps) (p :: (ps ++ rest)) = true :=
      ⟨by simp, isPre_self_append (p :: ps) rest⟩
    rw [if_pos hcond]
    have hlen : (p :: ps).length - 1 = ps.length := by simp
    rw [hlen, replGo_skip]
    rfl

theorem replaceAll_skip_all (pat rep s : List Char) (c0 : Char)
    (hc : c0 ∈ pat) (hs : c0 ∉ s) : replaceAll pat rep s = s := by
  induction s with
  | nil => rfl
  | cons c cs ih =>
    show replGo pat rep 0 (c :: cs) = c :: cs
    rw [replGo]
    have hnp : ¬ (pat ≠ [] ∧ isPre pat (c :: cs) = true) := by
      rintro ⟨-, hpre⟩
      exact hs (isPre_subset hpre c0 hc)
    rw [if_neg hnp]
    have : c0 ∉ cs := fun h => hs (List.mem_cons_of_mem _ h)
    rw [show replGo pat rep 0 cs = replaceAll pat rep cs from rfl, ih this]

theorem replaceAll_underscore (s : List Char) :
    replaceAll ['_'] [] s = s.filter (fun c => c ≠ '_') := by
  induction s with
  | nil => rfl
  | cons c cs ih =>
    show replGo ['_'] [] 0 (c :: cs) = _
    rw [replGo]
    by_cases hc : c = '_'
    · subst hc
      have hcond : (['_'] : List Char) ≠ [] ∧ isPre ['_'] ('_' :: cs) = true :=
        ⟨by simp, by simp [isPre]⟩
      rw [if_pos hcond]
      simp only [List.length_singleton, Nat.sub_self]
      rw [show replGo ['_'] [] 0 cs = replaceAll ['_'] [] cs from rfl, ih]
      simp [List.filter]
    · have hncond : ¬ ((['_'] : List Char) ≠ [] ∧ isPre ['_'] (c :: cs) = true) := by
        rintro ⟨-, hpre⟩
        simp only [isPre, Bool.and_eq_true, decide_eq_true_eq] at hpre
        exact hc hpre.1.symm
      rw [if_neg hncond]
      rw [show replGo ['_'] [] 0 cs = replaceAll ['_'] [] cs from rfl, ih]
      simp [List.filter, hc]

/-- The full post-processing chain on a string of the form `proton_<r>`, for
any `r` missing some character of `"proton_"` and missing `-`: the result is
`proton_` followed by `r` with all underscores removed. -/
theorem postProcess_chain (w : List Char) (c0 : Char) (hc0 : c0 ∈ pUsc)
    (h0 : c0 ∉ w) (h2 : '-' ∉ w) :
    (postProcess ⟨pUsc ++ w⟩).data = pUsc ++ w.filter (fun c => c ≠ '_') := by
  show replaceAll pDash pUsc
      (replaceAll ['_'] [] (replaceAll pUsc pDash (pUsc ++ w))) = _
  rw [replaceAll_pre pUsc pDash w (by decide),
    replaceAll_skip_all pUsc pDash w c0 hc0 h0,
    replaceAll_underscore, List.filter_append,
    show pDash.filter (fun c => c ≠ '_') = pDash from by decide,
    replaceAll_pre pDash pUsc _ (by decide),
    replaceAll_skip_all pDash pUsc _ '-' (by decide)
      (fun h => h2 (List.mem_of_mem_filter h))]

theorem digitsTok_not_mem {w : List Char} (h : digitsTok w = true)
    {c : Char} (hc : c.isDigit = false) : c ∉ w := by
  intro hmem
  unfold digitsTok at h
  simp only [Bool.and_eq_true, List.all_eq_true, decide_eq_true_eq] at h
  have := h.2 c hmem
  rw [hc] at this
  cases this

theorem splitOnP_no_sep (p : Char → Bool) (s : List Char) :
    ∀ w ∈ splitOnP p s, ∀ c ∈ w, p c = false := by
  induction s with
  | nil =>
    intro w hw c hc
    simp only [splitOnP, List.mem_singleton] at hw
    subst hw; cases hc
  | cons a as ih =>
    intro w hw c hc
    simp only [splitOnP] at hw
    by_cases ha : p a
    · rw [if_pos ha] at hw
      rcases List.mem_cons.mp hw with rfl | hw
      · cases hc
      · exact ih w hw c hc
    · rw [if_neg ha] at hw
      rcases hr : splitOnP p as with _ | ⟨v, vs⟩
      · rw [hr] at hw
        rcases List.mem_singleton.mp hw with rfl
        rcases List.mem_singleton.mp hc with rfl
        simpa using ha
      · rw [hr] at hw
        rcases List.mem_cons.mp hw with rfl | hw
        · rcases List.mem_cons.mp hc with rfl | hc
          · simpa using ha
          · exact ih v (hr ▸ List.mem_cons_self _ _) c hc
        · exact ih w (hr ▸ List.mem_cons_of_mem _ hw) c hc

theorem splitOnP_subset (p : Char → Bool) (s : List Char) :
    ∀ w ∈ splitOnP p s, ∀ c ∈ w, c ∈ s := by
  induction s with
  | nil =>
    intro w hw c hc
    simp only [splitOnP, List.mem_singleton] at hw
    subst hw; cases hc
  | cons a as ih =>
    intro w hw c hc
    simp only [splitOnP] at hw
    by_cases ha : p a
    · rw [if_pos ha] at hw
      rcases List.mem_cons.mp hw with rfl | hw
      · cases hc
      · exact List.mem_cons_of_mem _ (ih w hw c hc)
    · rw [if_neg ha] at hw
      rcases hr : splitOnP p as with _ | ⟨v, vs⟩
      · rw [hr] at hw
        rcases List.mem_singleton.mp hw with rfl
        rcases List.mem_singleton.mp hc with rfl
        exact List.mem_cons_self _ _
      · rw [hr] at hw
        rcases List.mem_cons.mp hw with rfl | hw
        · rcases List.mem_cons.mp hc with rfl | hc
          · exact List.mem_cons_self _ _
          · exact List.mem_cons_of_mem _
              (ih v (hr ▸ List.mem_cons_self _ _) c hc)
        · exact List.mem_cons_of_mem _
            (ih w (hr ▸ List.mem_cons_of_mem _ hw) c hc)

/-- Shape of every capture: it is `proton_<r>`, and post-processing yields
`proton_` followed by `r` stripped of all underscores, provided no token
contains `_` or `-`. -/
theorem captureFromToks_shape (toks : List (List Char)) (t : String)
    (hnu : ∀ w ∈ toks, '_' ∉ w) (hnd : ∀ w ∈ toks, '-' ∉ w)
    (h : captureFromToks toks = some t) :
    ∃ r : List Char, t.data = pUsc ++ r ∧
      (postProcess t).data = pUsc ++ r.filter (fun c => c ≠ '_') := by
  match toks with
  | [] => exact absurd h (by simp [captureFromToks])
  | [p] => exact absurd h (by simp [captureFromToks])
  | p :: major :: rest =>
    have hmajU : '_' ∉ major := hnu major (by simp)
    have hmajD : '-' ∉ major := hnd major (by simp)
    unfold captureFromToks at h
    dsimp only at h
    by_cases hp : p = "proton".data
    · rw [if_pos hp] at h
      by_cases hdig : digitsTok major
      · rw [if_pos hdig] at h
        match rest with
        | [] =>
          rcases Option.some.inj h with rfl
          exact ⟨major, rfl, postProcess_chain major '_' (by decide) hmajU hmajD⟩
        | minor :: rest' =>
          dsimp only at h
          have hminD : '-' ∉ minor := hnd minor (by simp)
          by_cases hdig2 : digitsTok minor
          · rw [if_pos hdig2] at h
            by_cases hz : minor = ['0']
            · rw [if_pos hz] at h
              rcases Option.some.inj h with rfl
              exact ⟨major, rfl,
                postProcess_chain major '_' (by decide) hmajU hmajD⟩
            · rw [if_neg hz] at h
              rcases Option.some.inj h with rfl
              refine ⟨major ++ '_' :: minor, by simp, ?_⟩
              have hp1 : 'p' ∉ major ++ '_' :: minor := by
                intro hmem
                rcases List.mem_append.mp hmem with hm | hm
                · exact digitsTok_not_mem hdig (by decide) hm
                · rcases List.mem_cons.mp hm with h' | hm
                  · cases h'
                  · exact digitsTok_not_mem hdig2 (by decide) hm
              have hd1 : '-' ∉ major ++ '_' :: minor := by
                intro hmem
                rcases List.mem_append.mp hmem with hm | hm
                · exact hmajD hm
                · rcases List.mem_cons.mp hm with h' | hm
                  · cases h'
                  · exact hminD hm
              have := postProcess_chain (major ++ '_' :: minor) 'p'
                (by decide) hp1 hd1
              simpa using this
          · rw [if_neg hdig2] at h
            rcases Option.some.inj h with rfl
            exact ⟨major, rfl, postProcess_chain major '_' (by decide) hmajU hmajD⟩
      · rw [if_neg hdig] at h
        by_cases hne : major ≠ []
        · rw [if_pos hne] at h
          rcases Option.some.inj h with rfl
          exact ⟨major, rfl, postProcess_chain major '_' (by decide) hmajU hmajD⟩
        · rw [if_neg hne] at h
          cases h
    · rw [if_neg hp] at h
      cases h

theorem stopLoopRun_exact (q : Nat → Bool) :
    ∀ n k, (∀ j, q (k + j) = decide (j < n)) →
      stopLoopRun q (n + 1) k = some (n + 1, n) := by
  intro n
  induction n with
  | zero =>
    intro k h
    have h0 : q k = false := by simpa using h 0
    simp [stopLoopRun, h0]
  | succ n ih =>
    intro k h
    have h0 : q k = true := by simpa using h 0
    have hshift : ∀ j, q (k + 1 + j) = decide (j < n) := by
      intro j
      have := h (j + 1)
      rw [show k + (j + 1) = k + 1 + j from by omega] at this
      rw [this]
      simp [Nat.succ_lt_succ_iff]
    have step : stopLoopRun q (n + 1 + 1) k =
        (stopLoopRun q (n + 1) (k + 1)).map (fun r => (r.1 + 1, r.2 + 1)) := by
      simp [stopLoopRun, h0]
    rw [step, ih (k + 1) hshift]
    rfl

theorem wait_first (q : Nat → Bool) :
    ∀ fuel d k, (∀ j, j < d → q (k + j) = false) → q (k + d) = true →
      d < fuel → wait_for_window_run q fuel k = some (k + d) := by
  intro fuel
  induction fuel with
  | zero => intro d k _ _ h; exact absurd h (Nat.not_lt_zero d)
  | succ fuel ih =>
    intro d k hlt hd hfuel
    cases d with
    | zero =>
      have hk : q k = true := by simpa using hd
      simp [wait_for_window_run, hk]
    | succ d =>
      have h0 : q k = false := by simpa using hlt 0 (Nat.succ_pos d)
      have hlt' : ∀ j, j < d → q (k + 1 + j) = false := by
        intro j hj
        have := hlt (j + 1) (by omega)
        rwa [show k + (j + 1) = k + 1 + j from by omega] at this
      have hd' : q (k + 1 + d) = true := by
        rwa [show k + 1 + d = k + (d + 1) from by omega]
      have hfd : d < fuel := Nat.lt_of_succ_lt_succ hfuel
      have hrec := ih d (k + 1) hlt' hd' hfd
      have step : wait_for_window_run q (fuel + 1) k =
          wait_for_window_run q fuel (k + 1) := by
        simp [wait_for_window_run, h0]
      rw [step, hrec, show k + 1 + d = k + (d + 1) from by omega]

theorem wait_never (q : Nat → Bool) (hq : ∀ k, q k = false) :
    ∀ fuel k, wait_for_window_run q fuel k = none := by
  intro fuel
  induction fuel with
  | zero => intro m; rfl
  | succ fuel ih => intro m; simp [wait_for_window_run, hq m, ih]

/-! ### Claims -/

/-- C1: for every display name, resolution follows the four-way policy:
present only in the user compatibilitytools.d directory → user-installed tool
with `builtin = false`; present in both → user-installed wins
(`builtin = false`, user path); present only in the vendor common directory →
`builtin = true`; present in neither → `none` (NotFound). -/
theorem resolve_four_way_policy (e : Env) (name : String) :
    (e.existsAt (pathJoin (COMMON e) name) = false →
      e.existsAt (pathJoin (COMPATIBILITYTOOLS_D e) name) = true →
      SteamCompat.from_name e name =
        some ⟨name, pathJoin (COMPATIBILITYTOOLS_D e) name, false⟩)
    ∧ (e.existsAt (pathJoin (COMMON e) name) = true →
      e.existsAt (pathJoin (COMPATIBILITYTOOLS_D e) name) = true →
      SteamCompat.from_name e name =
        some ⟨name, pathJoin (COMPATIBILITYTOOLS_D e) name, false⟩)
    ∧ (e.existsAt (pathJoin (COMMON e) name) = true →
      e.existsAt (pathJoin (COMPATIBILITYTOOLS_D e) name) = false →
      SteamCompat.from_name e name =
        some ⟨name, pathJoin (COMMON e) name, true⟩)
    ∧ (e.existsAt (pathJoin (COMMON e) name) = false →
      e.existsAt (pathJoin (COMPATIBILITYTOOLS_D e) name) = false →
      SteamCompat.from_name e name = none) := by
  refine ⟨fun h1 h2 => ?_, fun h1 h2 => ?_, fun h1 h2 => ?_, fun h1 h2 => ?_⟩ <;>
    simp [SteamCompat.from_name, h1, h2]

/-- Witness for C1: the four cases at concrete environments. -/
theorem resolve_four_way_policy_witness :
    SteamCompat.from_name envUserOnly "T" =
      some ⟨"T", "h/.steam/steam/compatibilitytools.d/T", false⟩
    ∧ SteamCompat.from_name envBothDirs "T" =
      some ⟨"T", "h/.steam/steam/compatibilitytools.d/T", false⟩
    ∧ SteamCompat.from_name envVendorOnly "T" =
      some ⟨"T", "h/.steam/steam/steamapps/common/T", true⟩
    ∧ SteamCompat.from_name envNothing "T" = none :=
  ⟨(resolve_four_way_policy envUserOnly "T").1 (by decide) (by decide),
   (resolve_four_way_policy envBothDirs "T").2.1 (by decide) (by decide),
   (resolve_four_way_policy envVendorOnly "T").2.2.1 (by decide) (by decide),
   (resolve_four_way_policy envNothing "T").2.2.2 (by decide) (by decide)⟩

/-- C2: concrete internal-identifier derivations for vendor-built-in tools:
`Proton 10.0 → proton_10`, `Proton 9.0 (Beta) → proton_9` (parenthetical
qualifier discarded), `Proton 4.11 → proton_411` (dot dropped, not rounded). -/
theorem builtin_internal_name_cases (path : String) :
    (SteamCompat.mk "Proton 10.0" path true).internal_name = "proton_10"
    ∧ (SteamCompat.mk "Proton 9.0 (Beta)" path true).internal_name = "proton_9"
    ∧ (SteamCompat.mk "Proton 4.11" path true).internal_name = "proton_411" :=
  ⟨rfl, rfl, rfl⟩

/-- C3: for a tool with `builtin = false`, the internal identifier is the
display name unchanged, for every display name string. -/
theorem user_tool_internal_name_verbatim (name path : String) :
    (SteamCompat.mk name path false).internal_name = name := rfl

/-- C4: whenever the derivation grammar yields no capture on the snake-cased
input, `internal_name` does not fail: it returns the plain snake-cased text
(the non-fatal stderr diagnostic is a side effect outside the model). -/
theorem derivation_fallback_total (name path : String)
    (h : internalPomCapture (toSnakeCase name) = none) :
    (SteamCompat.mk name path true).internal_name = toSnakeCase name := by
  simp [SteamCompat.internal_name, h]

/-- Witness for C4 at an adversarial display name with no vendor pattern. -/
theorem derivation_fallback_total_witness :
    internalPomCapture (toSnakeCase "Totally Unrelated!!") = none
    ∧ (SteamCompat.mk "Totally Unrelated!!" "" true).internal_name =
        toSnakeCase "Totally Unrelated!!" :=
  ⟨by decide, derivation_fallback_total "Totally Unrelated!!" "" (by decide)⟩

/-- C5: every capture has the form `proton_<r>`, and the post-processing
replace chain removes every underscore of `r` while reattaching exactly the
one separator after the literal `proton` token (the hypothesis that the
snake-cased input contains no `-` holds for all snake-cased text, which is
built only from lowercased alphanumerics and underscores). -/
theorem capture_postprocess_underscores (snake t : String)
    (hdash : '-' ∉ snake.data) (h : internalPomCapture snake = some t) :
    ∃ r : List Char, t.data = "proton_".data ++ r ∧
      (postProcess t).data = "proton_".data ++ r.filter (fun c => c ≠ '_') := by
  have hnu : ∀ w ∈ splitOnP (fun c => decide (c = '_')) snake.data, '_' ∉ w := by
    intro w hw hc
    have := splitOnP_no_sep (fun c => decide (c = '_')) snake.data w hw '_' hc
    simp at this
  have hnd : ∀ w ∈ splitOnP (fun c => decide (c = '_')) snake.data, '-' ∉ w := by
    intro w hw hc
    exact hdash (splitOnP_subset _ snake.data w hw '-' hc)
  exact captureFromToks_shape _ t hnu hnd h

/-- Witness for C5 at the spec's own example `proton_4_11`. -/
theorem capture_postprocess_underscores_witness :
    ∃ r : List Char, ("proton_4_11" : String).data = "proton_".data ++ r ∧
      (postProcess "proton_4_11").data =
        "proton_".data ++ r.filter (fun c => c ≠ '_') :=
  capture_postprocess_underscores "proton_4_11" "proton_4_11"
    (by decide) (by decide)

/-- C6: the per-item launch step goes through the platform launcher
(`steam -applaunch 431960 …`) when no renderer instance is detected, and
invokes the compatibility runtime directly with the renderer executable
(`<proton> run <wallpaper_engine> …`) when an instance is already running. -/
theorem launch_path_selection (e : Env) (proton wallpaper_engine : String)
    (i : Nat) (wid : String) :
    launchStep e false proton wallpaper_engine i wid =
      Cmd.steamAppLaunch 431960
        (wallpaperArgs
          ("Z:" ++ pathJoin (pathJoin (WORKSHOP_CONTENT_PATH e) wid)
            "project.json")
          ("Wallpaper #" ++ toString i))
    ∧ launchStep e true proton wallpaper_engine i wid =
      Cmd.protonRun proton wallpaper_engine
        (wallpaperArgs
          ("Z:" ++ pathJoin (pathJoin (WORKSHOP_CONTENT_PATH e) wid)
            "project.json")
          ("Wallpaper #" ++ toString i)) :=
  ⟨rfl, rfl⟩

/-- C7: when the process-list query reports running for the first N polls and
absent afterwards, the stop phase makes exactly N+1 polls (so it terminates
within N+1 polls) and issues N+1 stop commands: the initial one plus one per
poll that reported running. -/
theorem stop_loop_idempotent_retry (pgrepAt : Nat → String → Bool) (N : Nat)
    (h : ∀ k, we_is_running (pgrepAt k) = decide (k < N)) :
    stopPhase (fun k => we_is_running (pgrepAt k)) (N + 1) =
      some (N + 1, N + 1) := by
  unfold stopPhase
  rw [stopLoopRun_exact (fun k => we_is_running (pgrepAt k)) N 0
    (fun j => by simpa using h j)]
  rfl

/-- Witness for C7 with N = 2. -/
theorem stop_loop_idempotent_retry_witness :
    stopPhase (fun k => we_is_running (fun _ => decide (k < 2))) (2 + 1) =
      some (2 + 1, 2 + 1) :=
  stop_loop_idempotent_retry (fun k _ => decide (k < 2)) 2
    (fun k => by by_cases h : k < 2 <;> simp [we_is_running, h])

/-- C8 counterexample: with a valid configuration except an empty wallpaper
list, main takes the early-return branch whose process exit status is 0, not
nonzero as claimed. -/
theorem empty_list_exit_zero_counterexample :
    mainConfigPhase envAll ⟨"Proton 10.0", "64", []⟩ =
      MainOutcome.emptyWallpapersEarlyReturn
    ∧ exitCode (mainConfigPhase envAll ⟨"Proton 10.0", "64", []⟩) = some 0 :=
  ⟨by decide, by decide⟩

/-- C8 (amended): when the content list is empty (and resolution and the
architecture check pass), the program prints a user-visible error and
terminates immediately, but its exit status is zero. -/
theorem empty_list_warns_and_exits_zero (e : Env) (pv arch : String)
    (sc : SteamCompat) (hres : SteamCompat.from_name e pv = some sc)
    (harch : arch = "64" ∨ arch = "32") :
    mainConfigPhase e ⟨pv, arch, []⟩ = MainOutcome.emptyWallpapersEarlyReturn
    ∧ exitCode (mainConfigPhase e ⟨pv, arch, []⟩) = some 0 := by
  have hmain : mainConfigPhase e ⟨pv, arch, []⟩ =
      MainOutcome.emptyWallpapersEarlyReturn := by
    unfold mainConfigPhase
    dsimp only
    rw [hres]
    rcases harch with rfl | rfl <;> simp
  exact ⟨hmain, by rw [hmain]; rfl⟩

/-- Witness for the amended C8. -/
theorem empty_list_warns_and_exits_zero_witness :
    mainConfigPhase envAll ⟨"Proton 9.0 (Beta)", "32", []⟩ =
      MainOutcome.emptyWallpapersEarlyReturn
    ∧ exitCode (mainConfigPhase envAll ⟨"Proton 9.0 (Beta)", "32", []⟩) =
      some 0 :=
  empty_list_warns_and_exits_zero envAll "Proton 9.0 (Beta)" "32"
    ⟨"Proton 9.0 (Beta)", "h/.steam/steam/compatibilitytools.d/Proton 9.0 (Beta)",
      false⟩
    (by decide) (Or.inr rfl)

/-- C9: an architecture selector other than exactly `64` or `32` makes main
terminate in the arch configuration error with exit status 1, and a missing
renderer executable for a valid selector makes main terminate in the
missing-executable configuration error with exit status 1. -/
theorem config_errors_exit_nonzero (e : Env) (args : Args) (sc : SteamCompat)
    (hres : SteamCompat.from_name e args.proton_version = some sc) :
    (args.arch ≠ "64" → args.arch ≠ "32" →
      mainConfigPhase e args = MainOutcome.archError
      ∧ exitCode (mainConfigPhase e args) = some 1)
    ∧ ((args.arch = "64" ∨ args.arch = "32") → args.wallpaper_ids ≠ [] →
      e.existsAt (pathJoin (WALLPAPER_ENGINE_PATH e)
        ("wallpaper" ++ args.arch ++ ".exe")) = false →
      mainConfigPhase e args =
        MainOutcome.missingExeError (pathJoin (WALLPAPER_ENGINE_PATH e)
          ("wallpaper" ++ args.arch ++ ".exe"))
      ∧ exitCode (mainConfigPhase e args) = some 1) := by
  constructor
  · intro h64 h32
    have hmain : mainConfigPhase e args = MainOutcome.archError := by
      unfold mainConfigPhase
      rw [hres]
      simp [h64, h32]
    exact ⟨hmain, by rw [hmain]; rfl⟩
  · intro harch hne hexe
    have harch' : ¬(args.arch ≠ "64" ∧ args.arch ≠ "32") := by
      rcases harch with h | h <;> simp [h]
    have hlen : ¬(args.wallpaper_ids.length = 0) := fun h0 =>
      hne (List.length_eq_zero.mp h0)
    have hmain : mainConfigPhase e args =
        MainOutcome.missingExeError (pathJoin (WALLPAPER_ENGINE_PATH e)
          ("wallpaper" ++ args.arch ++ ".exe")) := by
      unfold mainConfigPhase
      rw [hres]
      dsimp only
      rw [if_neg harch', if_neg hlen, if_pos (by simp [hexe])]
    exact ⟨hmain, by rw [hmain]; rfl⟩

/-- Witness for C9: a bad selector and a missing renderer executable. -/
theorem config_errors_exit_nonzero_witness :
    (mainConfigPhase envAll ⟨"Proton 10.0", "128", ["w"]⟩ =
        MainOutcome.archError
      ∧ exitCode (mainConfigPhase envAll ⟨"Proton 10.0", "128", ["w"]⟩) =
        some 1)
    ∧ (mainConfigPhase envProtonNoExe ⟨"Proton 10.0", "64", ["w"]⟩ =
        MainOutcome.missingExeError
          "h/.steam/steam/steamapps/common/wallpaper_engine/wallpaper64.exe"
      ∧ exitCode (mainConfigPhase envProtonNoExe ⟨"Proton 10.0", "64", ["w"]⟩) =
        some 1) :=
  ⟨(config_errors_exit_nonzero envAll ⟨"Proton 10.0", "128", ["w"]⟩
      ⟨"Proton 10.0", "h/.steam/steam/compatibilitytools.d/Proton 10.0", false⟩
      (by decide)).1 (by decide) (by decide),
   (config_errors_exit_nonzero envProtonNoExe ⟨"Proton 10.0", "64", ["w"]⟩
      ⟨"Proton 10.0", "h/.steam/steam/steamapps/common/Proton 10.0", true⟩
      (by decide)).2 (Or.inl rfl) (by decide) (by decide)⟩

/-- C10: the window wait has no timeout: it returns exactly at the first poll
on which the window query succeeds, and if the query never succeeds it does
not return within any number of polls. -/
theorem window_wait_no_timeout (xdo : Nat → List String → Bool)
    (title : String) (k0 : Nat) :
    ((∀ j, j < k0 → window_title_exists (xdo j) title = false) →
      window_title_exists (xdo k0) title = true →
      ∀ fuel, k0 < fuel →
        wait_for_window_run (fun k => window_title_exists (xdo k) title)
          fuel 0 = some k0)
    ∧ ((∀ k, window_title_exists (xdo k) title = false) →
      ∀ fuel k,
        wait_for_window_run (fun k => window_title_exists (xdo k) title)
          fuel k = none) := by
  constructor
  · intro hbefore hat fuel hfuel
    have := wait_first (fun k => window_title_exists (xdo k) title) fuel k0 0
      (fun j hj => by simpa using hbefore j hj) (by simpa using hat) hfuel
    simpa using this
  · intro hnever fuel k
    exact wait_never _ hnever fuel k

/-- Witness for C10: a window appearing at the third poll, and a window that
never appears. -/
theorem window_wait_no_timeout_witness :
    wait_for_window_run
      (fun k => window_title_exists (fun _ => decide (2 ≤ k)) "Wallpaper #0")
      5 0 = some 2
    ∧ (∀ fuel k, wait_for_window_run
        (fun _ => window_title_exists (fun _ => (false : Bool)) "Wallpaper #0")
        fuel k = none) :=
  ⟨(window_wait_no_timeout (fun k _ => decide (2 ≤ k)) "Wallpaper #0" 2).1
      (by decide) (by decide) 5 (by decide),
   (window_wait_no_timeout (fun _ _ => (false : Bool)) "Wallpaper #0" 0).2
      (fun _ => rfl)⟩

end WEX
